import Mathlib

/-!
Verification development for the `quadtree` repository (`src/src/quadtree.js`).

The source file contains two implementations of the same data structure:
a class-based version (`class Quadtree`, first part of the file) and an
older prototype-based version (`Quadtree.prototype....`, second part).
Both are embedded here where claims refer to them.

Coordinates are JavaScript numbers; the embedding uses `ℚ`, which models
the arithmetic actually performed (`x1 + (x2 - x1) / 2`, comparisons)
exactly on all inputs used here.

Two embeddings are provided:
* a pure, inductive tree model (`QT`) of the class version (plus the
  prototype query/quadrant functions), used for structural claims; and
* a heap model (`JState`) with explicit node ids, parent references and
  item back-references (`_qtree_node`), used for claims whose truth
  depends on pointer identity and stale references.

Recursive operations take a fuel argument that merely bounds recursion
depth (the source recursions terminate on all reachable states); `none`
means the fuel ran out.  All fuel recursion is structural, so concrete
runs reduce definitionally.
-/

namespace Quadtree

attribute [local semireducible] Rat.mul Rat.add Rat.sub Rat.inv

/-- An axis-aligned bounding box, top-left corner first, as in the source
(`x1, y1` top left, `x2, y2` bottom right). -/
structure Bound where
  x1 : ℚ
  y1 : ℚ
  x2 : ℚ
  y2 : ℚ
deriving DecidableEq, Repr

/-- A caller-owned item: an identity plus its bound (`item.bound` in the
class version, `item._qtree_bbox` in the prototype version). -/
structure Item where
  id : ℕ
  bound : Bound
deriving DecidableEq, Repr

/-- The geometric and budget fields every node carries, as assigned by the
constructor: corners, midpoint (`mx = x1 + (x2 - x1) / 2`, likewise `my`),
`maxChildren` and the remaining `depth` budget. -/
structure Geo where
  x1 : ℚ
  y1 : ℚ
  x2 : ℚ
  y2 : ℚ
  mx : ℚ
  my : ℚ
  maxChildren : ℕ
  depth : ℕ
deriving DecidableEq, Repr

/-- Field initialisation of the constructor (both versions are identical):
stores the corners and derives the midpoint. -/
def Geo.make (x1 y1 x2 y2 : ℚ) (maxChildren depth : ℕ) : Geo :=
  { x1 := x1, y1 := y1, x2 := x2, y2 := y2
    mx := x1 + (x2 - x1) / 2, my := y1 + (y2 - y1) / 2
    maxChildren := maxChildren, depth := depth }

/-- `getBoundQuadrant` of the class version: `-1` when the node is a leaf
(`nodes.length === 0`); otherwise the first of the four strict
containment tests that passes, in source order (top-left, top-right,
bottom-left, bottom-right), else `-1`.  `numNodes` is `nodes.length`. -/
def quadrant (g : Geo) (numNodes : ℕ) (b : Bound) : Int :=
  if numNodes = 0 then -1
  else if b.y2 < g.my ∧ b.y1 > g.y1 ∧ b.x2 < g.mx ∧ b.x1 > g.x1 then 0
  else if b.y2 < g.my ∧ b.y1 > g.y1 ∧ b.x1 > g.mx ∧ b.x2 < g.x2 then 1
  else if b.y1 > g.my ∧ b.y2 < g.y2 ∧ b.x2 < g.mx ∧ b.x1 > g.x1 then 2
  else if b.y1 > g.my ∧ b.y2 < g.y2 ∧ b.x1 > g.mx ∧ b.x2 < g.x2 then 3
  else -1

/-- `Quadtree.prototype.getBoundQuadrant` of the prototype version.  It is
the same test except that the quadrant-1 and quadrant-3 branches compare
`bound.x1 > this.my` (the y midpoint) instead of `bound.x1 > this.mx`,
exactly as written in the source. -/
def quadrantProto (g : Geo) (numNodes : ℕ) (b : Bound) : Int :=
  if numNodes = 0 then -1
  else if b.y2 < g.my ∧ b.y1 > g.y1 ∧ b.x2 < g.mx ∧ b.x1 > g.x1 then 0
  else if b.y2 < g.my ∧ b.y1 > g.y1 ∧ b.x1 > g.my ∧ b.x2 < g.x2 then 1
  else if b.y1 > g.my ∧ b.y2 < g.y2 ∧ b.x2 < g.mx ∧ b.x1 > g.x1 then 2
  else if b.y1 > g.my ∧ b.y2 < g.y2 ∧ b.x1 > g.my ∧ b.x2 < g.x2 then 3
  else -1

/-- `isNotIntersectingBound` (identical in both versions): the standard
axis-aligned separation test. -/
def isNotIntersectingBound (x1 y1 x2 y2 tx1 ty1 tx2 ty2 : ℚ) : Bool :=
  tx2 < x1 || tx1 > x2 || ty2 < y1 || ty1 > y2

/-- A quadtree node of the pure model: geometry plus the two collections
the source keeps, `children` (the directly-held items) and `nodes` (the
sub-quadrants; empty, or exactly four in order NW, NE, SW, SE). -/
inductive QT : Type where
  | node (g : Geo) (children : List Item) (nodes : List QT) : QT
deriving Repr

def QT.geo : QT → Geo
  | .node g _ _ => g

def QT.children : QT → List Item
  | .node _ cs _ => cs

def QT.nodes : QT → List QT
  | .node _ _ ns => ns

def QT.setChildren : QT → List Item → QT
  | .node g _ ns, cs => .node g cs ns

def QT.setNodes : QT → List QT → QT
  | .node g cs _, ns => .node g cs ns

/-- Replace the `k`-th sub-quadrant (models `this.nodes[k].push(...)`
updating that child in place). -/
def QT.setNode : QT → ℕ → QT → QT
  | .node g cs ns, k, s => .node g cs (ns.set k s)

/-- A fresh node as built by `new Quadtree(x1, y1, x2, y2, maxChildren,
depth, parent)`: empty `children`, empty `nodes`. -/
def QT.make (x1 y1 x2 y2 : ℚ) (maxChildren depth : ℕ) : QT :=
  .node (Geo.make x1 y1 x2 y2 maxChildren depth) [] []

def QT.getBoundQuadrant (t : QT) (b : Bound) : Int :=
  quadrant t.geo t.nodes.length b

/-- The four sub-quadrant nodes built by the subdivision step of `push`,
in source order NW, NE, SW, SE, each inheriting `maxChildren`, a depth
budget one smaller, and the parent's midpoint as a corner. -/
def subdivideNodes (g : Geo) : List QT :=
  [QT.make g.x1 g.y1 g.mx g.my g.maxChildren (g.depth - 1),
   QT.make g.mx g.y1 g.x2 g.my g.maxChildren (g.depth - 1),
   QT.make g.x1 g.my g.mx g.y2 g.maxChildren (g.depth - 1),
   QT.make g.mx g.my g.x2 g.y2 g.maxChildren (g.depth - 1)]

/-- The two mutually recursive entry points of the class version's
insertion: a call of `push(item)` on a node, and one iteration of the
subdivision redistribution loop (`while (--i)`) on a node. -/
inductive PCall : Type where
  | push (t : QT) (it : Item) : PCall
  | rebal (t : QT) (i : ℕ) : PCall

/-- `push` of the class version together with its subdivision
redistribution loop, fueled.

`.push t it`: if the bound resolves to a concrete quadrant, delegate to
that child; otherwise append the item to `children` and, when the node is
a leaf with depth budget left and `children.length > maxChildren`,
subdivide and enter the redistribution loop at index
`children.length - 1`.

`.rebal t i`: one `while (--i)` iteration examining `children[i]`; when
the child resolves to a concrete quadrant it is pushed into that
sub-quadrant and removed from `children` by the in-place left shift
(`eraseIdx`); the loop exits when `i` reaches 0, so index 0 is never
examined. -/
def runP : ℕ → PCall → Option QT
  | 0, _ => none
  | fuel + 1, .push t it =>
    let q := t.getBoundQuadrant it.bound
    if q ≠ -1 then
      match t.nodes.get? q.toNat with
      | some sub =>
        match runP fuel (.push sub it) with
        | some sub' => some (t.setNode q.toNat sub')
        | none => none
      | none => none
    else
      let t1 := t.setChildren (t.children ++ [it])
      if t1.nodes.length ≠ 0 ∨ t1.geo.depth = 0 ∨
          t1.children.length ≤ t1.geo.maxChildren then
        some t1
      else
        let t2 := t1.setNodes (subdivideNodes t1.geo)
        runP fuel (.rebal t2 (t2.children.length - 1))
  | _ + 1, .rebal t 0 => some t
  | fuel + 1, .rebal t (i + 1) =>
    match t.children.get? (i + 1) with
    | none => none
    | some child =>
      let q := t.getBoundQuadrant child.bound
      if q ≠ -1 then
        match t.nodes.get? q.toNat with
        | none => none
        | some sub =>
          match runP fuel (.push sub child) with
          | none => none
          | some sub' =>
            runP fuel
              (.rebal ((t.setNode q.toNat sub').setChildren
                (t.children.eraseIdx (i + 1))) i)
      else
        runP fuel (.rebal t i)

/-- `push` of the class version (see `runP`). -/
def push (fuel : ℕ) (t : QT) (it : Item) : Option QT :=
  runP fuel (.push t it)

/-- The subdivision redistribution loop of `push` run from index `i`
downwards (see `runP`). -/
def rebalance (fuel : ℕ) (t : QT) (i : ℕ) : Option QT :=
  runP fuel (.rebal t i)

/-- The item scan of the class version's `query`: the callback is invoked
on each element in order; a truthy return stops the scan.  Returns the
list of items the callback was invoked on and whether a stop was
signalled.  (`query` iterates `children` from the last index down, so it
is applied to `children.reverse`.) -/
def scanItems (sig : Item → Bool) : List Item → List Item × Bool
  | [] => ([], false)
  | x :: xs =>
    if sig x then ([x], true)
    else
      let r := scanItems sig xs
      (x :: r.1, r.2)

/-- `query` of the class version.  Region-pruned by
`isNotIntersectingBound`; invokes the callback on every directly-held
item of a visited node (no per-item bound test in this version); a truthy
callback return stops this invocation only (remaining items and this
node's own sub-quadrants), after which the recursive calls of the
enclosing invocation still run.  Returns the items the callback was
invoked on, in invocation order.  `nodes` is always empty or of length
four on reachable trees. -/
def QT.query : ℕ → QT → Bound → (Item → Bool) → Option (List Item)
  | 0, _, _, _ => none
  | fuel + 1, .node g cs ns, r, sig =>
    if isNotIntersectingBound g.x1 g.y1 g.x2 g.y2 r.x1 r.y1 r.x2 r.y2 then
      some []
    else
      let s := scanItems sig cs.reverse
      if s.2 then some s.1
      else
        match ns with
        | [] => some s.1
        | [a, b, c, d] => do
          let la ← QT.query fuel a r sig
          let lb ← QT.query fuel b r sig
          let lc ← QT.query fuel c r sig
          let ld ← QT.query fuel d r sig
          pure (s.1 ++ la ++ lb ++ lc ++ ld)
        | _ => none

mutual

/-- `getChildrenCount` of the class version: the node's own item count
plus, if subdivided, the four children's counts (the source sums them in
the order 1, 0, 2, 3, which cannot change the total). -/
def QT.getChildrenCount : QT → ℕ
  | .node _ cs ns =>
    if ns.length = 0 then cs.length
    else cs.length + countList ns

def countList : List QT → ℕ
  | [] => 0
  | n :: rest => QT.getChildrenCount n + countList rest

end

/-- The merge test of the class version's `clean`: false when the node is
a leaf (`nodes.length === 0` early return) and when any of the four
children still directly holds an item; true exactly when all four
children's `children` lists are empty.  (`nodes` is always empty or of
length four on reachable trees.) -/
def cleanCond (n : QT) : Bool :=
  match n.nodes with
  | [a, b, c, d] =>
    a.children.isEmpty && b.children.isEmpty && c.children.isEmpty && d.children.isEmpty
  | _ => false

/-- The node addressed by a path of quadrant indices from the root. -/
def nodeAt? : QT → List (Fin 4) → Option QT
  | t, [] => some t
  | t, q :: p =>
    match t.nodes.get? q.val with
    | some c => nodeAt? c p
    | none => none

/-- Replace the node addressed by a path, leaving everything else
untouched. -/
def updateAt : QT → List (Fin 4) → QT → QT
  | _, [], n => n
  | t, q :: p, n =>
    match t.nodes.get? q.val with
    | some c => t.setNode q.val (updateAt c p n)
    | none => t

/-- `clean` of the class version, invoked on the node addressed by `p`
inside the tree rooted at `t` (the path plays the role of the parent
chain: the parent of the node at `p` is the node at `p.dropLast`, and the
node at `[]` is the root, whose `parent` is undefined).  When the merge
test passes the node discards `nodes` and `clean` is invoked on its
parent; at the root the cascade stops (`this.parent === undefined`). -/
def cleanAt (t : QT) (p : List (Fin 4)) : QT :=
  match nodeAt? t p with
  | none => t
  | some n =>
    if cleanCond n then
      let t' := updateAt t p (n.setNodes [])
      match p with
      | [] => t'
      | q :: rest => cleanAt t' (q :: rest).dropLast
  else t
termination_by p.length
decreasing_by
  simp_wf

/-- `Quadtree.prototype.query` of the prototype version: same region
pruning, but each directly-held item is tested against the query
rectangle (`isNotIntersectingBound(childBound..., x1, y1, x2, y2)`) and
the callback is invoked only on intersecting items; the callback's return
value is ignored (no early stop).  Items are scanned from the last index
down. -/
def QT.queryProto : ℕ → QT → Bound → Option (List Item)
  | 0, _, _ => none
  | fuel + 1, .node g cs ns, r =>
    if isNotIntersectingBound g.x1 g.y1 g.x2 g.y2 r.x1 r.y1 r.x2 r.y2 then
      some []
    else
      let called := cs.reverse.filter fun c =>
        !isNotIntersectingBound c.bound.x1 c.bound.y1 c.bound.x2 c.bound.y2
          r.x1 r.y1 r.x2 r.y2
      match ns with
      | [] => some called
      | [a, b, c, d] => do
        let la ← QT.queryProto fuel a r
        let lb ← QT.queryProto fuel b r
        let lc ← QT.queryProto fuel c r
        let ld ← QT.queryProto fuel d r
        pure (called ++ la ++ lb ++ lc ++ ld)
      | _ => none

/-- `Quadtree.prototype.queryPredicate`: at the node it is invoked on,
each directly-held item is passed to the predicate (no rectangle test)
and the callback is invoked when the predicate holds; but the four
recursive calls go to `query`, not `queryPredicate`, exactly as in the
source (`nodes[k].query(x1, y1, x2, y2, callback)`), so descendants
invoke the callback by the rectangle test and never consult the
predicate. -/
def QT.queryPredicateProto (fuel : ℕ) (t : QT) (r : Bound) (pred : Item → Bool) :
    Option (List Item) :=
  match t with
  | .node g cs ns =>
    if isNotIntersectingBound g.x1 g.y1 g.x2 g.y2 r.x1 r.y1 r.x2 r.y2 then
      some []
    else
      let called := cs.reverse.filter pred
      match ns with
      | [] => some called
      | [a, b, c, d] => do
        let la ← QT.queryProto fuel a r
        let lb ← QT.queryProto fuel b r
        let lc ← QT.queryProto fuel c r
        let ld ← QT.queryProto fuel d r
        pure (called ++ la ++ lb ++ lc ++ ld)
      | _ => none

/-!
Heap model of the class version.  Nodes live in a heap addressed by
index; items are addressed by index into a fixed table of bounds.  The
`parent` field distinguishes the three JavaScript values it can take:
`undefined` (the root as constructed by the caller, who omits the
argument), `null` (never produced by this code, but tested for by
`cleanPreserve`), and a reference to another node.  `backref` models the
`_qtree_node` property written on items.  Operations that can raise a
`TypeError` return the mutated state together with an error flag, since
in JavaScript the mutations performed before the throw persist.
-/

/-- The possible values of a node's `parent` field. -/
inductive JSParent : Type where
  | undef : JSParent
  | null : JSParent
  | ref (id : ℕ) : JSParent
deriving DecidableEq, Repr

/-- A heap node: the constructor-assigned fields of `Quadtree`, with
`children` a list of item ids and `nodes` a list of node ids. -/
structure NodeRec where
  g : Geo
  parent : JSParent
  children : List ℕ
  nodes : List ℕ
deriving DecidableEq, Repr

/-- `new Quadtree(x1, y1, x2, y2, maxChildren, depth, parent)` in the
heap model. -/
def NodeRec.make (x1 y1 x2 y2 : ℚ) (maxChildren depth : ℕ) (parent : JSParent) :
    NodeRec :=
  { g := Geo.make x1 y1 x2 y2 maxChildren depth
    parent := parent, children := [], nodes := [] }

/-- Mutable state: the node heap (node id = index; `new` appends) and the
`_qtree_node` back-reference of each item (`none` models the property
being absent). -/
structure JState where
  heap : List NodeRec
  backref : List (Option ℕ)
deriving DecidableEq, Repr

def JState.setNode (st : JState) (nid : ℕ) (nd : NodeRec) : JState :=
  { st with heap := st.heap.set nid nd }

/-- Unordered removal as written in `remove`/`removePreserve`:
`children[indexOf(item)] = children[children.length - 1]; children.pop()`.
When the item is absent, `indexOf` returns `-1`; the write to index `-1`
creates a non-index property (invisible to the array) and `pop` still
removes the last element. -/
def swapRemove (l : List ℕ) (x : ℕ) : List ℕ :=
  let i := l.indexOf x
  if i < l.length then (l.set i (l.getD (l.length - 1) 0)).dropLast
  else l.dropLast

/-- The two mutually recursive entry points of the heap insertion,
analogous to `PCall`. -/
inductive HCall : Type where
  | push (st : JState) (nid it : ℕ) : HCall
  | rebal (st : JState) (nid i : ℕ) : HCall

/-- `push` of the class version on the heap together with its
redistribution loop (see `runP` for the control flow; `bs` is the items'
bound table).  Subdivision allocates four fresh nodes whose `parent` is a
reference to this node; a direct append writes the item's back-reference
(`item._qtree_node = this`). -/
def runH (bs : List Bound) : ℕ → HCall → Option JState
  | 0, _ => none
  | fuel + 1, .push st nid it =>
    match st.heap.get? nid with
    | none => none
    | some nd =>
      let b := bs.getD it ⟨0, 0, 0, 0⟩
      let q := quadrant nd.g nd.nodes.length b
      if q ≠ -1 then
        match nd.nodes.get? q.toNat with
        | none => none
        | some cid => runH bs fuel (.push st cid it)
      else
        let nd1 := { nd with children := nd.children ++ [it] }
        let st1 := { (st.setNode nid nd1) with backref := st.backref.set it (some nid) }
        if nd1.nodes.length ≠ 0 ∨ nd1.g.depth = 0 ∨
            nd1.children.length ≤ nd1.g.maxChildren then
          some st1
        else
          let base := st1.heap.length
          let st2 := { st1 with heap := st1.heap ++
            [NodeRec.make nd1.g.x1 nd1.g.y1 nd1.g.mx nd1.g.my nd1.g.maxChildren
               (nd1.g.depth - 1) (.ref nid),
             NodeRec.make nd1.g.mx nd1.g.y1 nd1.g.x2 nd1.g.my nd1.g.maxChildren
               (nd1.g.depth - 1) (.ref nid),
             NodeRec.make nd1.g.x1 nd1.g.my nd1.g.mx nd1.g.y2 nd1.g.maxChildren
               (nd1.g.depth - 1) (.ref nid),
             NodeRec.make nd1.g.mx nd1.g.my nd1.g.x2 nd1.g.y2 nd1.g.maxChildren
               (nd1.g.depth - 1) (.ref nid)] }
          let st3 := st2.setNode nid
            { nd1 with nodes := [base, base + 1, base + 2, base + 3] }
          runH bs fuel (.rebal st3 nid (nd1.children.length - 1))
  | _ + 1, .rebal st _ 0 => some st
  | fuel + 1, .rebal st nid (i + 1) =>
    match st.heap.get? nid with
    | none => none
    | some nd =>
      match nd.children.get? (i + 1) with
      | none => none
      | some cit =>
        let q := quadrant nd.g nd.nodes.length (bs.getD cit ⟨0, 0, 0, 0⟩)
        if q ≠ -1 then
          match nd.nodes.get? q.toNat with
          | none => none
          | some cid =>
            match runH bs fuel (.push st cid cit) with
            | none => none
            | some st' =>
              match st'.heap.get? nid with
              | none => none
              | some nd' =>
                runH bs fuel (.rebal
                  (st'.setNode nid { nd' with children := nd'.children.eraseIdx (i + 1) })
                  nid i)
        else runH bs fuel (.rebal st nid i)

/-- `push` of the class version on the heap (see `runH`). -/
def pushH (bs : List Bound) (fuel : ℕ) (st : JState) (nid it : ℕ) : Option JState :=
  runH bs fuel (.push st nid it)

/-- `getChildrenCount` on the heap (source summation order 1, 0, 2, 3). -/
def getChildrenCountH : ℕ → JState → ℕ → Option ℕ
  | 0, _, _ => none
  | fuel + 1, st, nid =>
    match st.heap.get? nid with
    | none => none
    | some nd =>
      if nd.nodes.length = 0 then some nd.children.length
      else
        match nd.nodes with
        | [a, b, c, d] => do
          let c1 ← getChildrenCountH fuel st b
          let c0 ← getChildrenCountH fuel st a
          let c2 ← getChildrenCountH fuel st c
          let c3 ← getChildrenCountH fuel st d
          pure (nd.children.length + (c1 + c0 + c2 + c3))
        | _ => none

/-- `clean` of the class version on the heap, invoked on node `nid`.  The
result flag records whether a `TypeError` was raised (this function's
root guard tests `=== undefined`, so only a `null` parent would raise). -/
def cleanH : ℕ → JState → ℕ → Option (JState × Bool)
  | 0, _, _ => none
  | fuel + 1, st, nid =>
    match st.heap.get? nid with
    | none => none
    | some nd =>
      match nd.nodes with
      | [] => some (st, false)
      | [a, b, c, d] =>
        match st.heap.get? a, st.heap.get? b, st.heap.get? c, st.heap.get? d with
        | some na, some nb, some nc, some ndd =>
          if na.children.length > 0 ∨ nb.children.length > 0 ∨
              nc.children.length > 0 ∨ ndd.children.length > 0 then
            some (st, false)
          else
            let st1 := st.setNode nid { nd with nodes := [] }
            match nd.parent with
            | .undef => some (st1, false)
            | .null => some (st1, true)
            | .ref p => cleanH fuel st1 p
        | _, _, _, _ => none
      | _ => none

/-- `remove` of the class version on the heap.  The source first
delegates to `item._qtree_node` (`if (this !== itemNode) return
itemNode.remove(item)`), so the receiver is irrelevant and the removal
always happens at the back-referenced node; then, if that node has a
parent, `clean` is invoked on it (`this.parent === undefined` guards the
root).  A missing back-reference raises (`undefined.remove`). -/
def removeH (fuel : ℕ) (st : JState) (it : ℕ) : Option (JState × Bool) :=
  match st.backref.getD it none with
  | none => some (st, true)
  | some nid =>
    match st.heap.get? nid with
    | none => none
    | some nd =>
      let st1 := st.setNode nid { nd with children := swapRemove nd.children it }
      match nd.parent with
      | .undef => some (st1, false)
      | .null => some (st1, true)
      | .ref p => cleanH fuel st1 p

/-- `cleanPreserve` of the class version on the heap, invoked on node
`nid`.  When the subtree's total item count is within `maxChildren`, the
four children's `children` lists are drained into this node's own list
(each child's items appended in reverse, by the `while (i--)` loops);
the drained items' back-references are NOT updated and the child records
are NOT cleared, exactly as in the source.  The cascade guard is
`this.parent === null`, so at the root (whose parent is `undefined`) the
call `this.parent.cleanPreserve()` raises a `TypeError`, recorded in the
flag; the state mutated so far persists. -/
def cleanPreserveH : ℕ → JState → ℕ → Option (JState × Bool)
  | 0, _, _ => none
  | fuel + 1, st, nid =>
    match st.heap.get? nid with
    | none => none
    | some nd =>
      match nd.nodes with
      | [] => some (st, false)
      | [a, b, c, d] =>
        match getChildrenCountH (fuel + 1) st nid with
        | none => none
        | some itemCount =>
          if itemCount > nd.g.maxChildren then some (st, false)
          else
            match st.heap.get? a, st.heap.get? b, st.heap.get? c, st.heap.get? d with
            | some na, some nb, some nc, some ndd =>
              let st1 := st.setNode nid
                { nd with
                  children := nd.children ++ na.children.reverse ++
                    nb.children.reverse ++ nc.children.reverse ++ ndd.children.reverse
                  nodes := [] }
              match nd.parent with
              | .null => some (st1, false)
              | .undef => some (st1, true)
              | .ref p => cleanPreserveH fuel st1 p
            | _, _, _, _ => none
      | _ => none

/-- `removePreserve` of the class version on the heap: same delegated
unordered removal as `remove`, then `cleanPreserve` on the owning node's
parent (the root guard here correctly tests `=== undefined`). -/
def removePreserveH (fuel : ℕ) (st : JState) (it : ℕ) : Option (JState × Bool) :=
  match st.backref.getD it none with
  | none => some (st, true)
  | some nid =>
    match st.heap.get? nid with
    | none => none
    | some nd =>
      let st1 := st.setNode nid { nd with children := swapRemove nd.children it }
      match nd.parent with
      | .undef => some (st1, false)
      | .null => some (st1, true)
      | .ref p => cleanPreserveH fuel st1 p

/-- `query` of the class version on the heap, with an always-false
callback (collecting every item the callback is invoked on, in order). -/
def queryH : ℕ → JState → ℕ → Bound → Option (List ℕ)
  | 0, _, _, _ => none
  | fuel + 1, st, nid, r =>
    match st.heap.get? nid with
    | none => none
    | some nd =>
      if isNotIntersectingBound nd.g.x1 nd.g.y1 nd.g.x2 nd.g.y2
          r.x1 r.y1 r.x2 r.y2 then some []
      else
        match nd.nodes with
        | [] => some nd.children.reverse
        | [a, b, c, d] => do
          let la ← queryH fuel st a r
          let lb ← queryH fuel st b r
          let lc ← queryH fuel st c r
          let ld ← queryH fuel st d r
          pure (nd.children.reverse ++ la ++ lb ++ lc ++ ld)
        | _ => none

/-!
Concrete scenario used by several claims.  The caller builds
`new Quadtree(0, 0, 100, 100, 2, 1)` (so `parent` is `undefined`) and
pushes three items: A = (10,10,20,20) fits the NW quadrant,
B = (60,10,70,20) and C = (60,25,70,35) fit the NE quadrant.  The third
push subdivides the root: the redistribution loop moves C then B into the
NE child (node id 2), while A (index 0, never examined) stays at the
root.
-/

def scnBounds : List Bound :=
  [⟨10, 10, 20, 20⟩, ⟨60, 10, 70, 20⟩, ⟨60, 25, 70, 35⟩]

def scnInit : JState :=
  { heap := [NodeRec.make 0 0 100 100 2 1 .undef], backref := [none, none, none] }

def scnPush : Option JState := do
  let s1 ← pushH scnBounds 30 scnInit 0 0
  let s2 ← pushH scnBounds 30 s1 0 1
  pushH scnBounds 30 s2 0 2

/-- The state and error flag after `removePreserve(B)` on the pushed
scenario: the NE child loses B, then `cleanPreserve` on the root counts 2
remaining items (within `maxChildren`), drains C into the root's items,
discards the sub-quadrants, and then dereferences the root's `undefined`
parent. -/
def scnCollapse : Option (JState × Bool) := do
  let s ← scnPush
  removePreserveH 30 s 1

/-- Continue the scenario: after the collapse, remove C and A via
`remove` (all three pushed items have now been removed). -/
def scnAllRemoved : Option JState := do
  let (s1, _) ← scnCollapse
  let (s2, _) ← removeH 30 s1 2
  let (s3, _) ← removeH 30 s2 0
  pure s3

/-- Alternative history for the same item set: remove B then C via the
plain `remove` variant. -/
def scnRemoveTree : Option JState := do
  let s ← scnPush
  let (s1, _) ← removeH 30 s 1
  let (s2, _) ← removeH 30 s1 2
  pure s2

/-- Alternative history: remove B then C via `removePreserve`. -/
def scnPreserveTree : Option JState := do
  let (s1, _) ← scnCollapse
  let (s2, _) ← removePreserveH 30 s1 2
  pure s2

def dfltRec : NodeRec := NodeRec.make 0 0 0 0 0 0 .undef

def fullRect : Bound := ⟨0, 0, 100, 100⟩

/-! Concrete inputs for the query claims (pure model). -/

def c2item : Item := ⟨0, ⟨60, 60, 70, 70⟩⟩

/-- A single-node tree holding one item whose bound is far from the query
rectangle `c2rect`, while the node's region does overlap it. -/
def c2tree : QT := .node (Geo.make 0 0 100 100 8 4) [c2item] []

def c2rect : Bound := ⟨0, 0, 10, 10⟩

/-- A node region of extent 100 by 10: its x midpoint is 50 while its y
midpoint is 5, which separates `mx` from `my`. -/
def c5geo : Geo := Geo.make 0 0 100 10 2 3

/-- A bound straddling the x midpoint 50 (x from 10 to 60) inside the top
half of `c5geo`. -/
def c5bound : Bound := ⟨10, 2, 60, 4⟩

def c8itemX : Item := ⟨0, ⟨10, 10, 20, 20⟩⟩

def c8itemY : Item := ⟨1, ⟨60, 10, 70, 20⟩⟩

def c8a : QT := .node (Geo.make 0 0 50 50 2 3) [c8itemX] []

def c8b : QT := .node (Geo.make 50 0 100 50 2 3) [c8itemY] []

def c8c : QT := .node (Geo.make 0 50 50 100 2 3) [] []

def c8d : QT := .node (Geo.make 50 50 100 100 2 3) [] []

/-- A subdivided root with one item in the NW child and one in the NE
child. -/
def c8tree : QT := .node (Geo.make 0 0 100 100 2 4) [] [c8a, c8b, c8c, c8d]

def c8full : Bound := ⟨0, 0, 100, 100⟩

/-- A callback that signals early termination exactly on `c8itemX`. -/
def c8sig : Item → Bool := fun it => it.id == 0

def c10item : Item := ⟨0, ⟨10, 10, 20, 20⟩⟩

/-- A subdivided prototype tree with one item in the NW child and no
directly-held items at the root. -/
def c10tree : QT :=
  .node (Geo.make 0 0 100 100 2 4) []
    [.node (Geo.make 0 0 50 50 2 3) [c10item] [],
     .node (Geo.make 50 0 100 50 2 3) [] [],
     .node (Geo.make 0 50 50 100 2 3) [] [],
     .node (Geo.make 50 50 100 100 2 3) [] []]

/-! Concrete inputs for the redistribution claim (pure model): three
items all fitting the NW quadrant of a root (0,0,100,100) with
`maxChildren` 2 and depth budget 4.  The third push subdivides. -/

def c3i1 : Item := ⟨0, ⟨1, 1, 6, 6⟩⟩

def c3i2 : Item := ⟨1, ⟨2, 2, 7, 7⟩⟩

def c3i3 : Item := ⟨2, ⟨3, 3, 8, 8⟩⟩

def c3run : Option QT := do
  let t1 ← push 30 (QT.make 0 0 100 100 2 4) c3i1
  let t2 ← push 30 t1 c3i2
  push 30 t2 c3i3

/-- The state of the root at the moment the redistribution loop starts:
three held items and four freshly built sub-quadrants. -/
def c3tW : QT :=
  .node (Geo.make 0 0 100 100 2 4) [c3i1, c3i2, c3i3]
    (subdivideNodes (Geo.make 0 0 100 100 2 4))

/-- The result of the redistribution loop on `c3tW`: items at indices 2
and 1 moved into the NW child (in that order), the index-0 item left in
place. -/
def c3tW' : QT :=
  .node (Geo.make 0 0 100 100 2 4) [c3i1]
    [.node (Geo.make 0 0 50 50 2 3) [c3i3, c3i2] [],
     QT.make 50 0 100 50 2 3,
     QT.make 0 50 50 100 2 3,
     QT.make 50 50 100 100 2 3]

/-! Concrete inputs for the clean claim: a subdivided root whose four
children are all empty of directly-held items. -/

def c9wA : QT := QT.make 0 0 50 50 2 0

def c9wB : QT := QT.make 50 0 100 50 2 0

def c9wC : QT := QT.make 0 50 50 100 2 0

def c9wD : QT := QT.make 50 50 100 100 2 0

def c9wT : QT :=
  .node (Geo.make 0 0 100 100 2 1) [⟨0, ⟨60, 25, 70, 35⟩⟩] [c9wA, c9wB, c9wC, c9wD]

/-! Helper lemmas. -/

theorem QT.children_setChildren (t : QT) (cs : List Item) :
    (t.setChildren cs).children = cs := by
  obtain ⟨g, c, n⟩ := t; rfl

theorem QT.nodes_setChildren (t : QT) (cs : List Item) :
    (t.setChildren cs).nodes = t.nodes := by
  obtain ⟨g, c, n⟩ := t; rfl

theorem QT.children_setNode (t : QT) (k : ℕ) (s : QT) :
    (t.setNode k s).children = t.children := by
  obtain ⟨g, c, n⟩ := t; rfl

theorem QT.nodes_setNode (t : QT) (k : ℕ) (s : QT) :
    (t.setNode k s).nodes = t.nodes.set k s := by
  obtain ⟨g, c, n⟩ := t; rfl

theorem QT.children_setNodes (t : QT) (ns : List QT) :
    (t.setNodes ns).children = t.children := by
  obtain ⟨g, c, n⟩ := t; rfl

theorem QT.nodes_setNodes (t : QT) (ns : List QT) :
    (t.setNodes ns).nodes = ns := by
  obtain ⟨g, c, n⟩ := t; rfl

theorem QT.count_eq (t : QT) :
    t.getChildrenCount = t.children.length + countList t.nodes := by
  obtain ⟨g, cs, ns⟩ := t
  rw [QT.getChildrenCount]
  cases ns <;> simp [countList, QT.children, QT.nodes]

theorem countList_set (ns : List QT) (k : ℕ) (sub s : QT)
    (hk : ns.get? k = some sub) :
    countList (ns.set k s) + sub.getChildrenCount
      = countList ns + s.getChildrenCount := by
  induction ns generalizing k with
  | nil => simp at hk
  | cons n rest ih =>
    cases k with
    | zero =>
      simp only [List.get?] at hk
      injection hk with hk
      subst hk
      simp [countList]
      omega
    | succ k =>
      simp only [List.get?] at hk
      have := ih k hk
      simp [countList]
      omega

theorem countList_subdivide (g : Geo) : countList (subdivideNodes g) = 0 := by
  simp [subdivideNodes, countList, QT.make, QT.count_eq, QT.children, QT.nodes]

theorem quad_of_set (t : QT) (k : ℕ) (s : QT) (cs : List Item) (bnd : Bound) :
    ((t.setNode k s).setChildren cs).getBoundQuadrant bnd
      = t.getBoundQuadrant bnd := by
  obtain ⟨g, c, n⟩ := t
  simp [QT.setNode, QT.setChildren, QT.getBoundQuadrant, QT.geo, QT.nodes]

/-- Insertion adds exactly one to the recursive item count, and the
redistribution loop preserves it: no item is lost or duplicated by
subdivision. -/
theorem runP_count (fuel : ℕ) :
    (∀ t it t', runP fuel (.push t it) = some t' →
      t'.getChildrenCount = t.getChildrenCount + 1)
    ∧ (∀ t i t', runP fuel (.rebal t i) = some t' →
      t'.getChildrenCount = t.getChildrenCount) := by
  induction fuel with
  | zero =>
    constructor <;> (intro t x t' h; simp [runP] at h)
  | succ fuel ih =>
    constructor
    · intro t it t' h
      simp only [runP] at h
      split at h
      · split at h
        · rename_i sub hsub
          split at h
          · rename_i sub' hrec
            injection h with h
            subst h
            have h1 := ih.1 sub it sub' hrec
            have h2 := countList_set t.nodes (t.getBoundQuadrant it.bound).toNat
              sub sub' hsub
            rw [QT.count_eq, QT.children_setNode, QT.nodes_setNode, QT.count_eq t]
            omega
          · exact absurd h (by simp)
        · exact absurd h (by simp)
      · split at h
        · injection h with h
          subst h
          rw [QT.count_eq, QT.children_setChildren, QT.nodes_setChildren,
            QT.count_eq t]
          simp
          omega
        · rename_i hguard
          have h2 := ih.2 _ _ _ h
          rw [h2, QT.count_eq, QT.children_setNodes, QT.nodes_setNodes,
            QT.children_setChildren, countList_subdivide, QT.count_eq t]
          push_neg at hguard
          obtain ⟨hlen, -, -⟩ := hguard
          rw [QT.nodes_setChildren] at hlen
          have : t.nodes = [] := List.length_eq_zero.mp (by omega)
          rw [this]
          simp [countList]
    · intro t i t' h
      match i with
      | 0 =>
        simp only [runP] at h
        injection h with h
        subst h
        rfl
      | i + 1 =>
        simp only [runP] at h
        split at h
        · exact absurd h (by simp)
        · rename_i child hchild
          split at h
          · split at h
            · exact absurd h (by simp)
            · rename_i sub hsub
              split at h
              · exact absurd h (by simp)
              · rename_i sub' hrec
                have h2 := ih.2 _ _ _ h
                have h1 := ih.1 sub child sub' hrec
                have h3 := countList_set t.nodes
                  (t.getBoundQuadrant child.bound).toNat sub sub' hsub
                have hlt : i + 1 < t.children.length := by
                  rcases List.get?_eq_some.mp hchild with ⟨hl, -⟩
                  exact hl
                rw [h2, QT.count_eq, QT.children_setChildren, QT.nodes_setChildren,
                  QT.nodes_setNode, QT.count_eq t]
                rw [List.length_eraseIdx]
                simp [hlt]
                omega
          · exact ih.2 _ _ _ h

/-- Exact effect of the redistribution loop on the `children` list:
running it from index `i` leaves the index-0 item in place, keeps those
of the items at indices 1 through `i` that still resolve to no quadrant
(in their original order), moves the others out, and leaves indices above
`i` untouched. -/
theorem runP_rebal_children (fuel : ℕ) :
    ∀ t i t', runP fuel (.rebal t i) = some t' →
      t'.children = t.children.take 1
        ++ ((t.children.drop 1).take i).filter
            (fun c => t.getBoundQuadrant c.bound == -1)
        ++ t.children.drop (i + 1) := by
  induction fuel with
  | zero => intro t i t' h; simp [runP] at h
  | succ fuel ih =>
    intro t i t' h
    match i with
    | 0 =>
      simp only [runP] at h
      injection h with h
      subst h
      simp
      rw [← List.drop_one, List.take_append_drop]
    | i + 1 =>
      simp only [runP] at h
      split at h
      · exact absurd h (by simp)
      · rename_i child hchild
        have hlt : i + 1 < t.children.length := (List.get?_eq_some.mp hchild).1
        have hElem : t.children[i + 1]? = some child := by
          rw [← List.get?_eq_getElem?]; exact hchild
        have hdrop1 : (t.children.drop 1)[i]? = some child := by
          rw [List.getElem?_drop]
          simpa [Nat.add_comm] using hElem
        split at h
        · rename_i hq
          split at h
          · exact absurd h (by simp)
          · rename_i sub hsub
            split at h
            · exact absurd h (by simp)
            · rename_i sub' hrec
              have hrec2 := ih _ _ _ h
              rw [QT.children_setChildren] at hrec2
              have hfun :
                  (fun c : Item =>
                    ((t.setNode (t.getBoundQuadrant child.bound).toNat sub').setChildren
                      (t.children.eraseIdx (i + 1))).getBoundQuadrant c.bound == -1)
                  = (fun c : Item => t.getBoundQuadrant c.bound == -1) :=
                funext fun c => by rw [quad_of_set]
              rw [hfun] at hrec2
              rw [List.eraseIdx_eq_take_drop_succ] at hrec2
              have hlen_take : (t.children.take (i + 1)).length = i + 1 := by
                simp [List.length_take]
                omega
              have hA : (List.take (i + 1) t.children
                    ++ List.drop (i + 2) t.children).take 1
                  = t.children.take 1 := by
                rw [List.take_append_of_le_length (by omega), List.take_take]
                simp
              have hB : ((List.take (i + 1) t.children
                    ++ List.drop (i + 2) t.children).drop 1).take i
                  = (t.children.drop 1).take i := by
                rw [List.drop_append_of_le_length (by omega), List.drop_take]
                have h1 : (List.take (i + 1 - 1) (List.drop 1 t.children)).length = i := by
                  simp [List.length_take, List.length_drop]
                  omega
                rw [List.take_append_of_le_length (by omega)]
                rw [List.take_of_length_le (by omega)]
                simp
              have hC : (List.take (i + 1) t.children
                    ++ List.drop (i + 2) t.children).drop (i + 1)
                  = t.children.drop (i + 2) := by
                rw [List.drop_append_of_le_length (by omega), List.drop_take]
                simp
              rw [hA, hB, hC] at hrec2
              rw [hrec2]
              have hD : ((t.children.drop 1).take (i + 1)).filter
                  (fun c => t.getBoundQuadrant c.bound == -1)
                  = ((t.children.drop 1).take i).filter
                    (fun c => t.getBoundQuadrant c.bound == -1) := by
                rw [List.take_succ, hdrop1, List.filter_append]
                have : (t.getBoundQuadrant child.bound == -1) = false := by
                  simp only [beq_eq_false_iff_ne, ne_eq]
                  exact hq
                simp [List.filter, this]
              rw [hD]
        · rename_i hq
          have hrec2 := ih _ _ _ h
          rw [hrec2]
          have hq' : (t.getBoundQuadrant child.bound == -1) = true := by
            simp only [beq_iff_eq]
            simpa using hq
          have hD : ((t.children.drop 1).take (i + 1)).filter
              (fun c => t.getBoundQuadrant c.bound == -1)
              = ((t.children.drop 1).take i).filter
                (fun c => t.getBoundQuadrant c.bound == -1) ++ [child] := by
            rw [List.take_succ, hdrop1, List.filter_append]
            simp [List.filter, hq']
          rw [hD]
          have hE : t.children.drop (i + 1) = child :: t.children.drop (i + 2) := by
            rw [List.drop_eq_getElem_cons hlt]
            congr 1
            have := List.getElem?_eq_some.mp hElem
            obtain ⟨h1, h2⟩ := this
            exact h2
          rw [hE]
          simp

/-- The reverse item scan of `query` visits exactly the items up to and
including the first one on which the callback signals. -/
theorem scanItems_eq (sig : Item → Bool) (xs : List Item) :
    scanItems sig xs =
      (xs.takeWhile (fun x => !sig x) ++ (xs.dropWhile (fun x => !sig x)).take 1,
       !(xs.dropWhile (fun x => !sig x)).isEmpty) := by
  induction xs with
  | nil => simp [scanItems]
  | cons x xs ih =>
    by_cases hx : sig x
    · simp [scanItems, hx, List.takeWhile_cons, List.dropWhile_cons]
    · simp [scanItems, hx, List.takeWhile_cons, List.dropWhile_cons, ih]

/-! Claim theorems. -/

/-- C1.  The back-reference invariant is violated by `cleanPreserve`: in
the concrete scenario (push A, B, C into a fresh root, then
`removePreserve(B)`), after the collapse the root (node 0) directly holds
items 0 and 2 and has no sub-quadrants left, yet item 2's `_qtree_node`
still points at node 2, the discarded NE child, not at the root that now
holds it — the collapse drains items without rewriting their
back-references. -/
theorem c1_backref_points_at_stale_child :
    (scnCollapse.map fun pr =>
      ((pr.1.heap.getD 0 dfltRec).children, (pr.1.heap.getD 0 dfltRec).nodes,
       pr.1.backref.getD 2 none))
    = some ([0, 2], ([] : List ℕ), some 2) := by rfl

/-- C2.  The class version's `query` invokes the callback on an item
whose bound (60,60,70,70) is disjoint from the query rectangle
(0,0,10,10): it performs no per-item bound test, only region pruning.
The prototype version's `query`, which does test each item's bound as
the claim describes, yields nothing on the same input. -/
theorem c2_class_query_reports_disjoint_item :
    QT.query 10 c2tree c2rect (fun _ => false) = some [c2item] ∧
    QT.queryProto 10 c2tree c2rect = some [] := by
  constructor <;> rfl

/-- C3, counterexample.  After pushing three NW-fitting items into a
fresh root (maxChildren 2), the subdivision's redistribution loop leaves
the first item in the root's `children` even though its bound resolves to
quadrant 0 of the now-subdivided root: the `while (--i)` loop never
examines index 0, so a non-straddler remains on the node, contradicting
the claim that every held item, including the first, is re-tested. -/
theorem c3_index_zero_item_skipped :
    (c3run.map fun t => (t.children, t.getBoundQuadrant c3i1.bound)) =
      some ([c3i1], 0) := by rfl

/-- C3, amended.  Running the redistribution loop from index `i` leaves
the index-0 item in place, keeps exactly those of the items at indices 1
through `i` that still resolve to no quadrant (in their original,
shift-preserved order), leaves higher indices untouched, and moves each
fitting item into the resolved sub-quadrant without losing or duplicating
any item (the recursive item count is preserved). -/
theorem c3_redistribution (fuel : ℕ) (t t' : QT) (i : ℕ)
    (h : rebalance fuel t i = some t') :
    t'.children = t.children.take 1
      ++ ((t.children.drop 1).take i).filter
          (fun c => t.getBoundQuadrant c.bound == -1)
      ++ t.children.drop (i + 1)
    ∧ t'.getChildrenCount = t.getChildrenCount :=
  ⟨runP_rebal_children fuel t i t' h, (runP_count fuel).2 t i t' h⟩

/-- C3, witness: the amended characterisation evaluated on the concrete
subdivided root of the counterexample scenario. -/
theorem c3_redistribution_witness :
    c3tW'.children = c3tW.children.take 1
      ++ ((c3tW.children.drop 1).take 2).filter
          (fun c => c3tW.getBoundQuadrant c.bound == -1)
      ++ c3tW.children.drop 3
    ∧ c3tW'.getChildrenCount = c3tW.getChildrenCount :=
  c3_redistribution 20 c3tW c3tW' 2 (by rfl)

/-- C4.  `removePreserve` does raise an error when the upward
`cleanPreserve` cascade collapses the root: the cascade guard tests
`this.parent === null`, but the root constructed by the caller has
`parent === undefined`, so after collapsing the root the code calls
`undefined.cleanPreserve()` — the scenario's error flag is set. -/
theorem c4_removePreserve_root_collapse_raises :
    scnCollapse.map Prod.snd = some true := by rfl

/-- C5.  The prototype `getBoundQuadrant` compares `bound.x1 > this.my`
(the y midpoint) instead of `this.mx` in its quadrant-1 branch: on a
node region (0,0,100,10) (so mx = 50, my = 5) the bound (10,2,60,4),
which straddles the x midpoint, resolves to quadrant 1 instead of NONE;
the class version returns -1 on the same input, as the claim requires. -/
theorem c5_proto_quadrant_accepts_straddler :
    quadrantProto c5geo 4 c5bound = 1 ∧ quadrant c5geo 4 c5bound = -1 := by
  constructor <;> rfl

/-- C6.  Push A, B, C; remove B via `removePreserve`, then C and A via
`remove`: `getChildrenCount()` on the root ends at 1, not at its
pre-push value 0.  The collapse left C's back-reference pointing at the
discarded NE child, so `remove(C)` deleted it from that stale node's list
while C stayed in the root's items. -/
theorem c6_count_not_restored :
    (scnAllRemoved.bind fun s => getChildrenCountH 30 s 0) = some 1 ∧
    getChildrenCountH 30 scnInit 0 = some 0 := by
  constructor <;> rfl

/-- C7.  For the same pushed item set, removing B then C via `remove` in
one tree and via `removePreserve` in the other yields different query
memberships: the full-region query returns only A (item 0) in the first
tree but A and C (items 2, 0) in the second, because the collapse made
C's back-reference stale and the second `removePreserve` deleted it from
the discarded child instead of the root. -/
theorem c7_query_membership_differs :
    (scnRemoveTree.bind fun s => queryH 30 s 0 fullRect) = some [0] ∧
    (scnPreserveTree.bind fun s => queryH 30 s 0 fullRect) = some [2, 0] := by
  constructor <;> rfl

/-- C8, counterexample.  The callback signals on `c8itemX` in the NW
child, yet `c8itemY` in the NE sibling is still invoked afterwards: the
early-termination signal does not unwind the whole traversal, it only
returns from the current node's invocation. -/
theorem c8_signal_does_not_unwind :
    c8sig c8itemX = true ∧
    QT.query 10 c8tree c8full c8sig = some [c8itemX, c8itemY] := by
  constructor <;> rfl

/-- C8, amended.  On a visited subdivided node, the item scan covers
exactly the items up to and including the first signalling one (in
reverse storage order); if the scan signalled, the result is that scan
alone — neither the node's remaining items nor any of its sub-quadrants
are visited; if it did not signal, the results of all four sub-quadrant
traversals are appended, irrespective of signals raised inside earlier
siblings. -/
theorem c8_local_stop (fuel : ℕ) (t : QT) (r : Bound) (sig : Item → Bool)
    (a b c d : QT) (l la lb lc ld : List Item)
    (hreg : isNotIntersectingBound t.geo.x1 t.geo.y1 t.geo.x2 t.geo.y2
      r.x1 r.y1 r.x2 r.y2 = false)
    (h4 : t.nodes = [a, b, c, d])
    (hq : QT.query (fuel + 1) t r sig = some l)
    (ha : QT.query fuel a r sig = some la)
    (hb : QT.query fuel b r sig = some lb)
    (hc : QT.query fuel c r sig = some lc)
    (hd : QT.query fuel d r sig = some ld) :
    (scanItems sig t.children.reverse
      = (t.children.reverse.takeWhile (fun x => !sig x)
          ++ (t.children.reverse.dropWhile (fun x => !sig x)).take 1,
         !(t.children.reverse.dropWhile (fun x => !sig x)).isEmpty))
    ∧ ((scanItems sig t.children.reverse).2 = true →
        l = (scanItems sig t.children.reverse).1)
    ∧ ((scanItems sig t.children.reverse).2 = false →
        l = (scanItems sig t.children.reverse).1 ++ la ++ lb ++ lc ++ ld) := by
  obtain ⟨g, cs, ns⟩ := t
  simp only [QT.geo] at hreg
  simp only [QT.nodes] at h4
  subst h4
  simp only [QT.children]
  rw [QT.query, hreg] at hq
  refine ⟨scanItems_eq sig cs.reverse, ?_, ?_⟩
  · intro hstop
    simp [hstop] at hq
    exact hq.symm
  · intro hstop
    simp [hstop, ha, hb, hc, hd] at hq
    simp [List.append_assoc]
    exact hq.symm

/-- C8, witness: the amended statement evaluated on the concrete tree of
the counterexample. -/
theorem c8_local_stop_witness :
    (scanItems c8sig c8tree.children.reverse
      = (c8tree.children.reverse.takeWhile (fun x => !c8sig x)
          ++ (c8tree.children.reverse.dropWhile (fun x => !c8sig x)).take 1,
         !(c8tree.children.reverse.dropWhile (fun x => !c8sig x)).isEmpty))
    ∧ ((scanItems c8sig c8tree.children.reverse).2 = true →
        [c8itemX, c8itemY] = (scanItems c8sig c8tree.children.reverse).1)
    ∧ ((scanItems c8sig c8tree.children.reverse).2 = false →
        [c8itemX, c8itemY] = (scanItems c8sig c8tree.children.reverse).1
          ++ [c8itemX] ++ [c8itemY] ++ [] ++ []) :=
  c8_local_stop 9 c8tree c8full c8sig c8a c8b c8c c8d
    [c8itemX, c8itemY] [c8itemX] [c8itemY] [] []
    (by rfl) (by rfl) (by rfl) (by rfl) (by rfl) (by rfl) (by rfl)

/-- C9.  On a subdivided node (addressed by path `p`, whose parent chain
is `p.dropLast`, …), `clean` merges — discards the whole sub-quadrant
array — exactly when all four children hold zero directly-held items; if
any child holds one it does nothing at all; and after a successful merge
it invokes `clean` on the parent, the cascade stopping at the root. -/
theorem c9_clean (t n a b c d : QT) (p : List (Fin 4))
    (hn : nodeAt? t p = some n) (h4 : n.nodes = [a, b, c, d]) :
    (cleanCond n = true ↔
      (a.children = [] ∧ b.children = [] ∧ c.children = [] ∧ d.children = []))
    ∧ (cleanCond n = false → cleanAt t p = t)
    ∧ (cleanCond n = true → p = [] →
        cleanAt t p = updateAt t p (n.setNodes []))
    ∧ (cleanCond n = true → p ≠ [] →
        cleanAt t p = cleanAt (updateAt t p (n.setNodes [])) p.dropLast) := by
  refine ⟨?_, ?_, ?_, ?_⟩
  · unfold cleanCond
    rw [h4]
    simp [List.isEmpty_iff]
    tauto
  · intro hcond
    rw [cleanAt, hn]
    simp [hcond]
  · intro hcond hp
    subst hp
    rw [cleanAt, hn]
    simp [hcond]
  · intro hcond hp
    obtain ⟨q, rest, rfl⟩ := List.exists_cons_of_ne_nil hp
    rw [cleanAt, hn]
    simp [hcond]

/-- C9, witness: the characterisation evaluated at the root of a
subdivided tree whose four children are empty. -/
theorem c9_clean_witness :
    (cleanCond c9wT = true ↔
      (c9wA.children = [] ∧ c9wB.children = [] ∧ c9wC.children = []
        ∧ c9wD.children = []))
    ∧ (cleanCond c9wT = false → cleanAt c9wT [] = c9wT)
    ∧ (cleanCond c9wT = true → ([] : List (Fin 4)) = [] →
        cleanAt c9wT [] = updateAt c9wT [] (c9wT.setNodes []))
    ∧ (cleanCond c9wT = true → ([] : List (Fin 4)) ≠ [] →
        cleanAt c9wT [] = cleanAt (updateAt c9wT [] (c9wT.setNodes []))
          ([] : List (Fin 4)).dropLast) :=
  c9_clean c9wT c9wT c9wA c9wB c9wC c9wD [] (by rfl) (by rfl)

/-- C10.  `queryPredicate` with an always-false predicate still invokes
the callback on the NW child's item (whose bound intersects the query
rectangle): the recursion goes through `query`, which applies the
rectangle test and never consults the predicate, contradicting the claim
that the callback is invoked exactly when the predicate holds at every
visited node. -/
theorem c10_descends_via_query :
    QT.queryPredicateProto 10 c10tree c8full (fun _ => false)
      = some [c10item] := by rfl

end Quadtree
